import Mathlib

/-!
Shallow embedding of the enhanced tree-segmentation pipeline
(`src/ml/src/segmentation_enhanced.py`) of the coconut-leaf-disease
repository, together with proofs about the claims of its specification.

Modelling conventions:
* Python floats are modelled by exact rationals (`ℚ`); the float literals of
  the source (`0.35`, `1e-5`, `0.0003`, …) are taken at their decimal value.
* `np.pi` is the IEEE-754 double nearest π, an exact rational.
* Machine images and the OpenCV raster primitives (contours, moments,
  connected components, the stitcher itself) are opaque: their *outputs*
  (contour measurements, component statistics, decoded frame dimensions,
  stitched frames) are inputs of the embedded functions, while all arithmetic,
  filtering, ordering and control flow of the Python source is embedded
  faithfully.
* Python `int(x)` (truncation towards zero) is `pyInt`; Python `//` on
  integers (floor division) is `Int.fdiv`.
-/

/-- Python `int()` applied to an exact rational: truncation towards zero
(`Int.tdiv` truncates towards zero). -/
def pyInt (q : ℚ) : ℤ := Int.tdiv q.num (q.den : ℤ)

/-- The IEEE-754 double-precision value of `np.pi`, as an exact rational. -/
def npPi : ℚ := 884279719003555 / 281474976710656

/-- `int(np.sqrt q)` for `q ≥ 0`: the floor of the square root.  For a
rational `q ≥ 0`, `⌊√q⌋ = Nat.sqrt ⌊q⌋` (no integer square lies strictly
between `⌊q⌋` and `q`). -/
def isqrt (q : ℚ) : ℤ := (Nat.sqrt ⌊q⌋.toNat : ℤ)

/-- Python `x or d` for an optional integer argument: `None` and `0` are
falsy, so both select the default. -/
def pyOrInt (p : Option ℤ) (d : ℤ) : ℤ :=
  match p with
  | none => d
  | some v => if v = 0 then d else v

/- ===================================================================
   Vegetation detection (`detect_vegetation_mask`, lines 57–98).
   A BGR image is a flattened list of 8-bit pixels (values as rationals).
   =================================================================== -/

/-- One BGR pixel (channel values `0 ≤ · ≤ 255`, exact rationals). -/
structure PixelBGR where
  b : ℚ
  g : ℚ
  r : ℚ
deriving DecidableEq, Repr

/-- OpenCV BGR→HSV conversion for one pixel (real-valued model):
`V = max(R,G,B)`, `S = 255·(V−min)/V` (`0` if `V = 0`), hue on the 0–180
scale with the usual case split, wrapped into `[0,180)`. -/
def hsvOfBGR (p : PixelBGR) : ℚ × ℚ × ℚ :=
  let v := max p.r (max p.g p.b)
  let mn := min p.r (min p.g p.b)
  let diff := v - mn
  let s := if v = 0 then 0 else diff * 255 / v
  let h0 :=
    if diff = 0 then 0
    else if v = p.r then 30 * (p.g - p.b) / diff
    else if v = p.g then 60 + 30 * (p.b - p.r) / diff
    else 120 + 30 * (p.r - p.g) / diff
  let h := if h0 < 0 then h0 + 180 else h0
  (h, s, v)

/-- Indicator 1: `cv2.inRange(hsv, (20,30,30), (100,255,255))` — the HSV
green-range test. -/
def hsvMaskAt (p : PixelBGR) : Bool :=
  let hsv := hsvOfBGR p
  decide (20 ≤ hsv.1 ∧ hsv.1 ≤ 100 ∧ 30 ≤ hsv.2.1 ∧ hsv.2.1 ≤ 255 ∧
          30 ≤ hsv.2.2 ∧ hsv.2.2 ≤ 255)

/-- Excess-green index of one pixel: `clip(2G − R − B, 0, ∞)`. -/
def exgVal (p : PixelBGR) : ℚ := max (2 * p.g - p.r - p.b) 0

/-- `exg.max()` over the whole image: the global maximum used for
normalisation (0 on an empty image, as `clip(·,0,·)` is non-negative). -/
def exgMaxOf (img : List PixelBGR) : ℚ := (img.map exgVal).foldr max 0

/-- Indicator 2: the ExG mask at one pixel, given the image-wide maximum `m`:
the index is rescaled by `255/m` when `m > 0`, then thresholded at 60. -/
def exgMaskAt (m : ℚ) (p : PixelBGR) : Bool :=
  decide (60 < (if 0 < m then exgVal p * (255 / m) else exgVal p))

/-- Indicator 3: the NDVI approximation `(G−R)/(G+R+1e-5) > 0.098`. -/
def ndviMaskAt (p : PixelBGR) : Bool :=
  decide ((49 : ℚ)/500 < (p.g - p.r) / (p.g + p.r + 1/100000))

/-- `uint8` cast of a boolean mask bit (`(mask > 0).astype(np.uint8)`). -/
def b2n (b : Bool) : ℕ := if b then 1 else 0

/-- Per-pixel vote: the sum of the three indicator bits (line 89). -/
def voteAt (m : ℚ) (p : PixelBGR) : ℕ :=
  b2n (hsvMaskAt p) + b2n (exgMaskAt m p) + b2n (ndviMaskAt p)

/-- The pre-morphology vegetation mask (line 90): pixel set iff the vote
is at least 2. -/
def vegPreMask (img : List PixelBGR) : List Bool :=
  let m := exgMaxOf img
  img.map (fun p => decide (2 ≤ voteAt m p))

/-- The vote as obtained by summing the three indicator bits of a pixel in an
arbitrary order, given as any list of the three bits. -/
def voteOfBits (l : List Bool) : ℕ := (l.map b2n).sum

/- ===================================================================
   Tree regions (`TreeRegion` dictionaries of the source).
   =================================================================== -/

/-- A detected tree-crown region.  `bbox` is `(x, y, width, height)`;
`centroid` is `(cx, cy)`.  `disease`/`confidence` are absent (`none`) until
the classification stage sets them.  `hasMask` records whether the source
dictionary carries a per-pixel `mask` (watershed regions only). -/
structure Region where
  label : ℤ
  bbox : ℤ × ℤ × ℤ × ℤ
  centroid : ℤ × ℤ
  area : ℚ
  solidity : ℚ
  circularity : ℚ
  aspect_ratio : ℚ
  hasMask : Bool
  disease : Option String := none
  confidence : Option ℚ := none
deriving DecidableEq, Repr

/-- Measurements of one contour, i.e. the outputs of the opaque OpenCV calls
`cv2.contourArea`, `cv2.boundingRect`, `cv2.moments`,
`cv2.contourArea(cv2.convexHull(·))` and `cv2.arcLength` for that contour. -/
structure ContourMeas where
  area : ℚ
  x : ℤ
  y : ℤ
  bw : ℤ
  bh : ℤ
  m00 : ℚ
  m10 : ℚ
  m01 : ℚ
  hullArea : ℚ
  perimeter : ℚ
deriving DecidableEq, Repr

/-- The default minimum tree area: `max(200, int(img_area * 0.0003))`. -/
def defaultMinArea (imgArea : ℤ) : ℤ := max 200 (pyInt ((imgArea : ℚ) * (3/10000)))

/-- The default maximum tree area: `int(img_area * 0.08)`. -/
def defaultMaxArea (imgArea : ℤ) : ℤ := pyInt ((imgArea : ℚ) * (2/25))

/-- The common candidate filter of both segmenters (lines 140–172 and
236–260): reject when the area is outside `[minA, maxA]`, the aspect ratio
`bw/(bh+1e-5)` is outside `[0.25, 4.0]`, or the solidity
`area/(hull_area+1e-5)` is below `0.3`; otherwise build the region. -/
def buildRegion (minA maxA : ℚ) (lab : ℤ) (keepMask : Bool)
    (c : ContourMeas) : Option Region :=
  if c.area < minA ∨ maxA < c.area then none
  else if (c.bw : ℚ) / ((c.bh : ℚ) + 1/100000) < 1/4 ∨
      4 < (c.bw : ℚ) / ((c.bh : ℚ) + 1/100000) then none
  else if c.area / (c.hullArea + 1/100000) < 3/10 then none
  else
    some { label := lab
           bbox := (c.x, c.y, c.bw, c.bh)
           centroid :=
             (if 0 < c.m00 then pyInt (c.m10 / c.m00) else c.x + Int.fdiv c.bw 2,
              if 0 < c.m00 then pyInt (c.m01 / c.m00) else c.y + Int.fdiv c.bh 2)
           area := c.area
           solidity := c.area / (c.hullArea + 1/100000)
           circularity := 4 * npPi * c.area / (c.perimeter ^ 2 + 1/100000)
           aspect_ratio := (c.bw : ℚ) / ((c.bh : ℚ) + 1/100000)
           hasMask := keepMask }

/-- `segment_individual_trees_watershed` (lines 101–174): the watershed
labelling itself is an opaque raster operation; its output is the list of
per-label contour measurements `cs` (each the largest contour of one
watershed label `> 1`).  The function applies the size/shape filter to each
and keeps the per-pixel mask. -/
def segment_individual_trees_watershed (h w : ℕ) (minA? maxA? : Option ℤ)
    (cs : List (ℤ × ContourMeas)) : List Region :=
  let imgArea : ℤ := (h : ℤ) * (w : ℤ)
  let minA : ℤ := pyOrInt minA? (defaultMinArea imgArea)
  let maxA : ℤ := pyOrInt maxA? (defaultMaxArea imgArea)
  cs.filterMap (fun lc => buildRegion (minA : ℚ) (maxA : ℚ) lc.1 true lc.2)

/-- One connected component found inside a large blob
(`cv2.connectedComponentsWithStats` output): its stats area and the
integer parts of its centroid. -/
structure SplitComp where
  statArea : ℚ
  scx : ℤ
  scy : ℤ
deriving DecidableEq, Repr

/-- One external contour of the vegetation mask, with the component
decomposition the distance-transform/connected-components pass would find
inside it (used only when the blob is large).  `num_labels` of the source is
`split.length + 1` (component 0 is the background). -/
structure ContourData where
  meas : ContourMeas
  split : List SplitComp
deriving DecidableEq, Repr

/-- The body of the blob-splitting loop (lines 213–232): each component with
stats area ≥ 50 yields an estimated box of half-width
`est_r = max(int(sqrt(area/num_labels/pi)), 20)` around its centroid, clipped
to the frame; boxes thinner than 10 px are skipped.  The appended region has
fixed `solidity = 0.7` and `circularity = 0.5` and label `count + 100`. -/
def splitRegions (h w : ℕ) (contArea : ℚ) (numLabels : ℕ)
    (acc : List Region) (comps : List SplitComp) : List Region :=
  comps.foldl
    (fun acc comp =>
      if comp.statArea < 50 then acc
      else
        let est_r : ℤ := max (isqrt (contArea / (numLabels : ℚ) / npPi)) 20
        let rx1 : ℤ := max 0 (comp.scx - est_r)
        let ry1 : ℤ := max 0 (comp.scy - est_r)
        let rx2 : ℤ := min (w : ℤ) (comp.scx + est_r)
        let ry2 : ℤ := min (h : ℤ) (comp.scy + est_r)
        let rw : ℤ := rx2 - rx1
        let rh : ℤ := ry2 - ry1
        if rw < 10 ∨ rh < 10 then acc
        else
          acc ++ [{ label := (acc.length : ℤ) + 100
                    bbox := (rx1, ry1, rw, rh)
                    centroid := (comp.scx, comp.scy)
                    area := ((rw * rh : ℤ) : ℚ)
                    solidity := 7/10
                    circularity := 1/2
                    aspect_ratio := (rw : ℚ) / ((rh : ℚ) + 1/100000)
                    hasMask := false }])
    acc

/-- Processing of one external contour in
`segment_individual_trees_contour` (lines 195–260). -/
def contourStep (h w : ℕ) (minA maxA : ℚ) (acc : List Region)
    (cd : ContourData) : List Region :=
  if cd.meas.area < minA then acc
  else if maxA * (1/2) < cd.meas.area ∧ 2 < cd.split.length + 1 then
    splitRegions h w cd.meas.area (cd.split.length + 1) acc cd.split
  else
    match buildRegion minA maxA (acc.length : ℤ) false cd.meas with
    | none => acc
    | some r => acc ++ [r]

/-- `segment_individual_trees_contour` (lines 177–262), over the external
contours of the vegetation mask (opaque `cv2.findContours` output, passed as
data). -/
def segment_individual_trees_contour (h w : ℕ) (minA? maxA? : Option ℤ)
    (cs : List ContourData) : List Region :=
  let imgArea : ℤ := (h : ℤ) * (w : ℤ)
  let minA : ℤ := pyOrInt minA? (defaultMinArea imgArea)
  let maxA : ℤ := pyOrInt maxA? (defaultMaxArea imgArea)
  cs.foldl (contourStep h w (minA : ℚ) (maxA : ℚ)) []

/- ===================================================================
   Deduplication (`remove_duplicate_trees`, lines 265–290).
   =================================================================== -/

/-- Bounding-box intersection-over-union as the source computes it
(including the `1e-5` smoothing term in the denominator). -/
def iou (b1 b2 : ℤ × ℤ × ℤ × ℤ) : ℚ :=
  let ix1 : ℤ := max b1.1 b2.1
  let iy1 : ℤ := max b1.2.1 b2.2.1
  let ix2 : ℤ := min (b1.1 + b1.2.2.1) (b2.1 + b2.2.2.1)
  let iy2 : ℤ := min (b1.2.1 + b1.2.2.2) (b2.2.1 + b2.2.2.2)
  if ix2 ≤ ix1 ∨ iy2 ≤ iy1 then 0
  else
    let inter : ℤ := (ix2 - ix1) * (iy2 - iy1)
    (inter : ℚ) / (((b1.2.2.1 * b1.2.2.2 + b2.2.2.1 * b2.2.2.2 : ℤ) : ℚ)
      - (inter : ℚ) + 1/100000)

/-- Region quality: `0.5·solidity + 0.3·circularity + 0.2·min(area/10000,1)`. -/
def quality (r : Region) : ℚ :=
  r.solidity * (1/2) + r.circularity * (3/10) + min (r.area / 10000) 1 * (1/5)

/-- The comparison used by `sorted(..., key=quality, reverse=True)`:
`a` may be placed before `b` iff `quality b ≤ quality a`.  Mathlib's
`insertionSort` with this relation is stable and sorts descending by
quality, exactly like Python's stable `sorted` with `reverse=True`. -/
def qualityGe (a b : Region) : Prop := quality b ≤ quality a

instance : DecidableRel qualityGe := fun a b => by unfold qualityGe; infer_instance

instance : IsTotal Region qualityGe := ⟨fun a b => le_total (quality b) (quality a)⟩

instance : IsTrans Region qualityGe :=
  ⟨fun _ _ _ h1 h2 => le_trans h2 h1⟩

/-- The greedy suppression loop: keep a region iff its IoU with every
already-kept region is `≤ overlap_threshold`. -/
def dedupGo (thr : ℚ) (kept : List Region) : List Region → List Region
  | [] => kept
  | r :: rs =>
      if kept.any (fun k => decide (thr < iou r.bbox k.bbox)) then
        dedupGo thr kept rs
      else dedupGo thr (kept ++ [r]) rs

/-- `remove_duplicate_trees`: sort by quality descending (stable), then
greedily keep. -/
def remove_duplicate_trees (tree_regions : List Region)
    (overlap_threshold : ℚ := 2/5) : List Region :=
  dedupGo overlap_threshold [] (List.insertionSort qualityGe tree_regions)

/- ===================================================================
   Deterministic ordering (line 519–521) and numbering.
   =================================================================== -/

/-- The sort key `(centroid.y // 100, centroid.x)` (Python `//` floors). -/
def sortKey (r : Region) : ℤ × ℤ := (Int.fdiv r.centroid.2 100, r.centroid.1)

/-- Lexicographic comparison of sort keys (Python tuple comparison). -/
def keyLe (a b : Region) : Prop :=
  (sortKey a).1 < (sortKey b).1 ∨
    ((sortKey a).1 = (sortKey b).1 ∧ (sortKey a).2 ≤ (sortKey b).2)

instance : DecidableRel keyLe := fun a b => by unfold keyLe; infer_instance

instance : IsTotal Region keyLe := by
  constructor
  intro a b
  unfold keyLe
  omega

instance : IsTrans Region keyLe := by
  constructor
  intro a b c h1 h2
  unfold keyLe at *
  omega

/-- The sort of line 520: stable sort by `sortKey`, ascending. -/
def sortRegions (l : List Region) : List Region := List.insertionSort keyLe l

/- ===================================================================
   Classification stage (lines 524–588).  The classifier, its transform
   and the tensor type are opaque; the transform may fail (`none` models a
   raised exception, caught per region), the classifier is the injected
   capability returning a top-1 class index and its softmax confidence
   per item.
   =================================================================== -/

/-- Mark one region as unclassifiable (`disease='Unknown'`, `confidence=0.0`). -/
def markUnknown (r : Region) : Region :=
  { r with disease := some "Unknown", confidence := some 0 }

/-- The padded crop window of a region (lines 538–541): 10 % of the smaller
bbox side on each side, clipped to the panorama bounds.  Result is
`(x1, y1, x2, y2)`. -/
def cropRect (W H : ℕ) (bbox : ℤ × ℤ × ℤ × ℤ) : ℤ × ℤ × ℤ × ℤ :=
  let pad : ℤ := pyInt (((min bbox.2.2.1 bbox.2.2.2 : ℤ) : ℚ) * (1/10))
  (max 0 (bbox.1 - pad), max 0 (bbox.2.1 - pad),
   min (W : ℤ) (bbox.1 + bbox.2.2.1 + pad),
   min (H : ℤ) (bbox.2.1 + bbox.2.2.2 + pad))

/-- `tree_crop.size == 0`: the numpy slice `[y1:y2, x1:x2]` is empty iff a
side is non-positive. -/
def cropEmpty (rect : ℤ × ℤ × ℤ × ℤ) : Bool :=
  decide (rect.2.2.1 ≤ rect.1 ∨ rect.2.2.2 ≤ rect.2.1)

/-- First pass (lines 536–556): walk the regions; an empty crop or a
transform failure marks the region `Unknown`/0.0; otherwise its tensor is
collected together with the region's index (`crop_indices`). -/
def pass1 {T : Type} (W H : ℕ) (tf : ℤ × ℤ × ℤ × ℤ → Option T) :
    List Region → List Region × List (ℕ × T)
  | [] => ([], [])
  | r :: rs =>
      let rect := cropRect W H r.bbox
      let rest := pass1 W H tf rs
      let shifted := rest.2.map (fun it => (it.1 + 1, it.2))
      if cropEmpty rect then (markUnknown r :: rest.1, shifted)
      else
        match tf rect with
        | none => (markUnknown r :: rest.1, shifted)
        | some t => (r :: rest.1, (0, t) :: shifted)

/-- In-place update of the region at one index (`tree_regions[region_idx]`). -/
def modifyIdx (f : Region → Region) : List Region → ℕ → List Region
  | [], _ => []
  | r :: rs, 0 => f r :: rs
  | r :: rs, n + 1 => r :: modifyIdx f rs n

/-- `class_names[pred_idx] if pred_idx < len(class_names) else 'Unknown'`. -/
def classLabel (names : List String) (idx : ℕ) : String := names.getD idx "Unknown"

/-- Write one batched prediction back to its region (lines 582–587). -/
def applyPred {T : Type} (names : List String) (md : T → ℕ × ℚ)
    (acc : List Region) (it : ℕ × T) : List Region :=
  modifyIdx
    (fun r => { r with disease := some (classLabel names (md it.2).1),
                       confidence := some (md it.2).2 })
    acc it.1

/-- `disease_counts[dis] = disease_counts.get(dis, 0) + 1` on an association
list (insertion-ordered dictionary). -/
def bump (m : List (String × ℕ)) (k : String) : List (String × ℕ) :=
  match m with
  | [] => [(k, 1)]
  | (k', v) :: rest => if k' = k then (k', v + 1) :: rest else (k', v) :: bump rest k

/-- The whole classification stage: first pass, then the batched forward
pass written back per collected index, plus the running label histogram.
The per-batch loop of the source concatenates the per-item predictions in
order, i.e. it computes the classifier on each collected tensor. -/
def classifyStage {T : Type} (W H : ℕ) (tf : ℤ × ℤ × ℤ × ℤ → Option T)
    (md : T → ℕ × ℚ) (names : List String) (regions : List Region) :
    List Region × List (String × ℕ) :=
  let p1 := pass1 W H tf regions
  (p1.2.foldl (applyPred names md) p1.1,
   (p1.2.map (fun it => classLabel names (md it.2).1)).foldl bump [])

/-- The crop of a region fails iff it is empty or the transform raises. -/
def prepFails {T : Type} (W H : ℕ) (tf : ℤ × ℤ × ℤ × ℤ → Option T)
    (r : Region) : Prop :=
  cropEmpty (cropRect W H r.bbox) = true ∨ (tf (cropRect W H r.bbox)).isNone = true

instance {T : Type} (W H : ℕ) (tf : ℤ × ℤ × ℤ × ℤ → Option T) (r : Region) :
    Decidable (prepFails W H tf r) := by unfold prepFails; infer_instance

/-- Classification of a single region in isolation (the per-region meaning
the batched code implements). -/
def classifyOne {T : Type} (W H : ℕ) (tf : ℤ × ℤ × ℤ × ℤ → Option T)
    (md : T → ℕ × ℚ) (names : List String) (r : Region) : Region :=
  let rect := cropRect W H r.bbox
  if cropEmpty rect then markUnknown r
  else
    match tf rect with
    | none => markUnknown r
    | some t => { r with disease := some (classLabel names (md t).1),
                         confidence := some (md t).2 }

/-- Sum of the values of a label histogram. -/
def sumVals (m : List (String × ℕ)) : ℕ := (m.map Prod.snd).sum

/- ===================================================================
   Annotation (`annotate_trees_enhanced`, lines 620–665, and
   `annotate_trees`, lines 293–360): the returned per-tree summaries.
   =================================================================== -/

/-- One entry of the `tree_data` list of `annotate_trees_enhanced`:
`bbox` is in corner format `[x, y, x+w, y+h]`. -/
structure TreeDatum where
  id : String
  number : ℕ
  bbox : List ℤ
  centroid : List ℤ
  disease : Option String
  confidence : Option ℚ
deriving DecidableEq, Repr

/-- The `tree_data` built by `annotate_trees_enhanced` (drawing calls are
side effects on the raster and carry no data). -/
def annotate_trees_enhanced (tree_regions : List Region) : List TreeDatum :=
  tree_regions.enum.map (fun ir =>
    { id := "Tree_" ++ toString (ir.1 + 1)
      number := ir.1 + 1
      bbox := [ir.2.bbox.1, ir.2.bbox.2.1,
               ir.2.bbox.1 + ir.2.bbox.2.2.1, ir.2.bbox.2.1 + ir.2.bbox.2.2.2]
      centroid := [ir.2.centroid.1, ir.2.centroid.2]
      disease := ir.2.disease
      confidence := ir.2.confidence })

/-- One entry of the `tree_data` list of the older `annotate_trees`
(lines 350–358): corner-format bbox plus shape metrics, no disease data. -/
structure TreeDatumBasic where
  id : String
  number : ℕ
  bbox : List ℤ
  centroid : List ℤ
  area : ℚ
  solidity : ℚ
  circularity : ℚ
deriving DecidableEq, Repr

/-- The `tree_data` built by `annotate_trees`. -/
def annotate_trees (tree_regions : List Region) : List TreeDatumBasic :=
  tree_regions.enum.map (fun ir =>
    { id := "Tree_" ++ toString (ir.1 + 1)
      number := ir.1 + 1
      bbox := [ir.2.bbox.1, ir.2.bbox.2.1,
               ir.2.bbox.1 + ir.2.bbox.2.2.1, ir.2.bbox.2.1 + ir.2.bbox.2.2.2]
      centroid := [ir.2.centroid.1, ir.2.centroid.2]
      area := ir.2.area
      solidity := ir.2.solidity
      circularity := ir.2.circularity })

/- ===================================================================
   Stitching (`stitch_panorama`, lines 363–420).  Image decoding and the
   OpenCV stitcher are opaque: `decode` maps a path to its decoded frame
   (or `none` on failure), `stitcher` is the combined outcome of the
   PANORAMA/SCANS attempts (a panorama, or `none` when both strategies
   fail or throw).
   =================================================================== -/

/-- A decoded raster frame; only its dimensions matter to the embedded
control flow, `tag` distinguishes frames with equal dimensions. -/
structure Frame where
  h : ℕ
  w : ℕ
  tag : ℕ := 0
deriving DecidableEq, Repr

/-- Even subsampling when more than `MAX_STITCH_IMAGES = 25` paths are given
(lines 379–384): `indices = [int(i * (n/25)) for i in range(25)]`. -/
def samplePaths (paths : List String) : List String :=
  if 25 < paths.length then
    (List.range 25).map
      (fun i : ℕ => paths.getD (pyInt ((i : ℚ) * ((paths.length : ℚ) / 25))).toNat "")
  else paths

/-- Auto-reduction of the width cap when many images survive sampling
(lines 387–388). -/
def effectiveMaxWidth (mw : ℕ) (nPaths : ℕ) : ℕ :=
  if 15 < nPaths then min mw 2000 else mw

/-- Per-image downscaling (lines 396–400): only applied when the *width*
exceeds the cap; scales both sides by `max_width / w`. -/
def resizeCap (mw : ℕ) (f : Frame) : Frame :=
  if (mw : ℤ) < (f.w : ℤ) then
    let scale : ℚ := (mw : ℚ) / (f.w : ℚ)
    { h := (pyInt ((f.h : ℚ) * scale)).toNat,
      w := (pyInt ((f.w : ℚ) * scale)).toNat, tag := f.tag }
  else f

/-- The list of decoded, possibly-downscaled images handed to the stitcher. -/
def stitchInputImages (decode : String → Option Frame) (paths : List String)
    (mw : ℕ) : List Frame :=
  let pathsToUse := samplePaths paths
  let mw2 := effectiveMaxWidth mw pathsToUse.length
  pathsToUse.filterMap (fun p => (decode p).map (resizeCap mw2))

/-- `stitch_panorama`: `None` for fewer than 2 paths or fewer than 2
decodable images, otherwise the stitcher outcome. -/
def stitch_panorama (decode : String → Option Frame)
    (stitcher : List Frame → Option Frame) (image_paths : List String)
    (max_width : ℕ := 4000) : Option Frame :=
  if image_paths.length < 2 then none
  else
    let images := stitchInputImages decode image_paths max_width
    if images.length < 2 then none else stitcher images

/- ===================================================================
   The orchestrator (`process_panoramic_images`, lines 423–617).
   =================================================================== -/

/-- The aggregate pipeline result (the raster outputs `annotated` and
`vegetation_mask` are opaque and omitted). -/
structure PipeResult where
  panorama : Frame
  tree_data : List TreeDatum
  num_trees : ℕ
  tree_regions : List Region
  disease_counts : List (String × ℕ)
deriving DecidableEq, Repr

/-- Mapping one region back to full resolution (lines 508–515):
bbox and centroid components through `int(· * inv)`, area by `inv²`. -/
def remapRegion (inv : ℚ) (r : Region) : Region :=
  { r with
    bbox := (pyInt ((r.bbox.1 : ℚ) * inv), pyInt ((r.bbox.2.1 : ℚ) * inv),
             pyInt ((r.bbox.2.2.1 : ℚ) * inv), pyInt ((r.bbox.2.2.2 : ℚ) * inv))
    centroid := (pyInt ((r.centroid.1 : ℚ) * inv), pyInt ((r.centroid.2 : ℚ) * inv))
    area := r.area * (inv * inv) }

/-- The panorama acquisition of lines 452–459: stitch when at least two
paths are given, falling back to decoding the first path; a single path is
decoded directly. -/
def panoramaOf (decode : String → Option Frame)
    (stitcher : List Frame → Option Frame)
    (image_paths : List String) : Option Frame :=
  if 2 ≤ image_paths.length then
    match stitch_panorama decode stitcher image_paths 4000 with
    | some p => some p
    | none => decode image_paths.headI
  else decode image_paths.headI

/-- Lines 464–521: optional downscale for segmentation, watershed
segmentation, contour fallback (when fewer than 5 watershed trees),
deduplication at threshold 0.35, remap back to full resolution, and the
deterministic sort. -/
def segmentAndOrder (wsContours : List (ℤ × ContourMeas))
    (ctContours : List ContourData)
    (min_tree_area max_tree_area : Option ℤ) (pano : Frame) : List Region :=
  let longest : ℕ := max pano.h pano.w
  let scale : ℚ := if 3000 < longest then 3000 / (longest : ℚ) else 1
  let segH : ℕ :=
    if 3000 < longest then (pyInt ((pano.h : ℚ) * scale)).toNat else pano.h
  let segW : ℕ :=
    if 3000 < longest then (pyInt ((pano.w : ℚ) * scale)).toNat else pano.w
  let ws := segment_individual_trees_watershed segH segW
    min_tree_area max_tree_area wsContours
  let regions0 :=
    if ws.length < 5 then
      ws ++ segment_individual_trees_contour segH segW
        min_tree_area max_tree_area ctContours
    else ws
  let regions1 := remove_duplicate_trees regions0 (7/20)
  let regions2 :=
    if scale < 1 then regions1.map (remapRegion (1/scale)) else regions1
  sortRegions regions2

/-- The classification stage as invoked by the orchestrator (lines
523–591): run only when the model, the transform and a nonempty label list
are all supplied (Python truthiness of the three arguments). -/
def classifiedOf {T : Type} (classification_model : Option (T → ℕ × ℚ))
    (transform : Option (ℤ × ℤ × ℤ × ℤ → Option T)) (class_names : List String)
    (pano : Frame) (regions3 : List Region) :
    List Region × List (String × ℕ) :=
  match classification_model, transform with
  | some md, some tf =>
      if class_names.isEmpty then (regions3, [])
      else classifyStage pano.w pano.h tf md class_names regions3
  | _, _ => (regions3, [])

/-- `process_panoramic_images`.  Opaque collaborators are parameters:
`decode` (cv2.imread), `stitcher` (the stitching attempts), the contour
measurements the raster stages would produce on the working image, the
optional classifier capability and its transform.  `image_paths[0]` on an
empty list raises `IndexError` before anything else happens. -/
def process_panoramic_images {T : Type}
    (decode : String → Option Frame)
    (stitcher : List Frame → Option Frame)
    (wsContours : List (ℤ × ContourMeas))
    (ctContours : List ContourData)
    (image_paths : List String)
    (min_tree_area max_tree_area : Option ℤ)
    (classification_model : Option (T → ℕ × ℚ))
    (transform : Option (ℤ × ℤ × ℤ × ℤ → Option T))
    (class_names : List String) : Except String PipeResult :=
  if image_paths.isEmpty then Except.error "IndexError"
  else
    match panoramaOf decode stitcher image_paths with
    | none => Except.error "Could not load any images"
    | some pano =>
        let regions3 := segmentAndOrder wsContours ctContours
          min_tree_area max_tree_area pano
        let classified := classifiedOf classification_model transform
          class_names pano regions3
        let tree_data := annotate_trees_enhanced classified.1
        Except.ok { panorama := pano
                    tree_data := tree_data
                    num_trees := tree_data.length
                    tree_regions := classified.1
                    disease_counts := classified.2 }

/- Concrete regions used as inputs of witnesses and counterexamples. -/

/-- A region with sort key `(0, 5)` (centroid `(5, 5)`). -/
def rTieA : Region :=
  { label := 1, bbox := (0, 0, 10, 10), centroid := (5, 5), area := 100,
    solidity := 1, circularity := 1, aspect_ratio := 1, hasMask := false }

/-- A distinct region with the same sort key `(0, 5)`: its centroid `(5, 90)`
falls in the same 100-pixel row bucket and has the same x. -/
def rTieB : Region :=
  { label := 2, bbox := (40, 0, 10, 10), centroid := (5, 90), area := 100,
    solidity := 1, circularity := 1, aspect_ratio := 1, hasMask := false }

/-- A region with sort key `(0, 5)`. -/
def rKeyC : Region :=
  { label := 3, bbox := (0, 0, 10, 10), centroid := (5, 5), area := 100,
    solidity := 1, circularity := 1, aspect_ratio := 1, hasMask := false }

/-- A region with sort key `(2, 5)` (distinct from `rKeyC`). -/
def rKeyD : Region :=
  { label := 4, bbox := (0, 200, 10, 10), centroid := (5, 250), area := 100,
    solidity := 1, circularity := 1, aspect_ratio := 1, hasMask := false }

/-- A region's crop preparation succeeds: the padded crop is non-empty and
the transform does not raise. -/
def prepOk {T : Type} (W H : ℕ) (tf : ℤ × ℤ × ℤ × ℤ → Option T)
    (r : Region) : Bool :=
  !(cropEmpty (cropRect W H r.bbox)) && (tf (cropRect W H r.bbox)).isSome

/-- The size/shape band the Crown Segmenter enforces on accepted candidates. -/
def regionInBand (minA maxA : ℚ) (r : Region) : Prop :=
  minA ≤ r.area ∧ r.area ≤ maxA ∧ 1/4 ≤ r.aspect_ratio ∧
    r.aspect_ratio ≤ 4 ∧ 3/10 ≤ r.solidity

/-- The shape of a region emitted by the blob-splitting path of the contour
fallback (lines 224–232): fixed `solidity = 0.7` and `circularity = 0.5`,
box sides at least 10 px, area equal to the box area, no mask, and no
disease data yet. -/
def splitRegionShape (r : Region) : Prop :=
  r.disease = none ∧ r.confidence = none ∧ r.solidity = 7/10 ∧
  r.circularity = 1/2 ∧ 10 ≤ r.bbox.2.2.1 ∧ 10 ≤ r.bbox.2.2.2 ∧
  r.area = ((r.bbox.2.2.1 * r.bbox.2.2.2 : ℤ) : ℚ) ∧ r.hasMask = false

/-- The pipeline result of a run on one decodable 100×100 image with no
contours and no classifier. -/
def emptyRunResult : PipeResult :=
  { panorama := ⟨100, 100, 1⟩, tree_data := [], num_trees := 0,
    tree_regions := [], disease_counts := [] }

/-- A large contour (area 400) whose distance-transform pass finds two
components, triggering the blob-splitting path. -/
def cSplitMeas : ContourMeas :=
  { area := 400, x := 0, y := 0, bw := 30, bh := 30, m00 := 1, m10 := 5,
    m01 := 5, hullArea := 400, perimeter := 80 }

/-- The contour oracle for the splitting counterexample: one large contour
with two inner components, the first near the image corner (centroid
`(5,5)`, stats area 100), the second tiny (stats area 10, skipped). -/
def cSplitData : List ContourData :=
  [⟨cSplitMeas, [⟨100, 5, 5⟩, ⟨10, 500, 500⟩]⟩]

/-- The region the splitting path emits for the first component: a 25×25
box of area 625 — outside the explicit `[200, 300]` area band. -/
def cSplitRegion : Region :=
  { label := 100, bbox := (0, 0, 25, 25), centroid := (5, 5),
    area := ((25 * 25 : ℤ) : ℚ), solidity := 7/10, circularity := 1/2,
    aspect_ratio := (25 : ℚ) / ((25 : ℚ) + 1/100000), hasMask := false }

/-- A decode oracle for which only `"good.jpg"` decodes (to a 100×100
frame); every other path fails to decode. -/
def decodeFirstBad : String → Option Frame :=
  fun p => if p = "good.jpg" then some ⟨100, 100, 7⟩ else none

/-- A decode oracle returning a 5000-tall, 100-wide frame for every path. -/
def decodeTall : String → Option Frame := fun _ => some ⟨5000, 100, 3⟩

/-! ## Theorems -/

example : vegPreMask [⟨0, 200, 10⟩] = [true] := by
  simp only [vegPreMask, exgMaxOf, exgVal, voteAt, hsvMaskAt, exgMaskAt,
    ndviMaskAt, hsvOfBGR, b2n, List.map, List.foldr, max_def]
  norm_num
example : vegPreMask [⟨200, 10, 250⟩] = [false] := by
  simp only [vegPreMask, exgMaxOf, exgVal, voteAt, hsvMaskAt, exgMaskAt,
    ndviMaskAt, hsvOfBGR, b2n, List.map, List.foldr, max_def]
  norm_num

theorem vegPreMask_length (img : List PixelBGR) :
    (vegPreMask img).length = img.length := by
  simp [vegPreMask]

theorem voteOfBits_eq_count (l : List Bool) : voteOfBits l = l.count true := by
  induction l with
  | nil => rfl
  | cons a t ih =>
      cases a <;> simp [voteOfBits, b2n, List.count_cons, List.sum_cons] at * <;> omega

theorem vegPreMask_get (img : List PixelBGR) (i : ℕ) (h : i < img.length) :
    (vegPreMask img).get ⟨i, by rw [vegPreMask_length]; exact h⟩ =
      decide (2 ≤ voteAt (exgMaxOf img) (img.get ⟨i, h⟩)) := by
  simp [vegPreMask]

/-- For nonnegative rationals Python truncation agrees with the floor. -/
theorem pyInt_eq_floor (q : ℚ) (hq : 0 ≤ q) : pyInt q = ⌊q⌋ := by
  unfold pyInt
  rw [Int.tdiv_eq_ediv (by exact_mod_cast Rat.num_nonneg.mpr hq) (by positivity)]
  rw [← Rat.floor_intCast_div_natCast, Rat.num_div_den]

/-- C1: in `detect_vegetation_mask`, a pixel of the pre-morphology vegetation
mask (`vote >= 2`, lines 89–90) is set exactly when at least 2 of the 3
indicator masks — the HSV green-range test, the normalised/thresholded
Excess Green index, and the thresholded NDVI approximation — are set at that
pixel (a ≥2-of-3 count), and the result is invariant under the order in which
the three indicator bits are summed: any permutation of the three bits gives
the same majority decision. -/
theorem C1_vegetation_majority_vote (img : List PixelBGR) (i : ℕ)
    (h : i < img.length) :
    ((vegPreMask img).get ⟨i, by rw [vegPreMask_length]; exact h⟩ = true ↔
      2 ≤ ([hsvMaskAt (img.get ⟨i, h⟩),
            exgMaskAt (exgMaxOf img) (img.get ⟨i, h⟩),
            ndviMaskAt (img.get ⟨i, h⟩)].count true))
    ∧ ∀ l : List Bool,
        l.Perm [hsvMaskAt (img.get ⟨i, h⟩),
                exgMaskAt (exgMaxOf img) (img.get ⟨i, h⟩),
                ndviMaskAt (img.get ⟨i, h⟩)] →
        ((vegPreMask img).get ⟨i, by rw [vegPreMask_length]; exact h⟩ = true ↔
          2 ≤ voteOfBits l) := by
  have hg := vegPreMask_get img i h
  have hsum : voteAt (exgMaxOf img) (img.get ⟨i, h⟩) =
      voteOfBits [hsvMaskAt (img.get ⟨i, h⟩),
                  exgMaskAt (exgMaxOf img) (img.get ⟨i, h⟩),
                  ndviMaskAt (img.get ⟨i, h⟩)] := by
    simp [voteAt, voteOfBits, Nat.add_assoc]
  constructor
  · rw [hg, ← voteOfBits_eq_count, ← hsum]
    simp
  · intro l hl
    rw [hg, voteOfBits_eq_count l, hl.count_eq true, ← voteOfBits_eq_count, ← hsum]
    simp

/-- Witness for C1 at a concrete image: the green pixel `(B,G,R)=(0,200,10)`
triggers all three indicators, so the theorem's count criterion puts it in
the pre-morphology mask. -/
theorem C1_vegetation_majority_vote_witness :
    (vegPreMask [⟨0, 200, 10⟩]).get ⟨0, by rw [vegPreMask_length]; norm_num⟩
      = true := by
  rw [(C1_vegetation_majority_vote [⟨0, 200, 10⟩] 0 (by norm_num)).1]
  simp only [List.get, hsvMaskAt, exgMaskAt, ndviMaskAt, hsvOfBGR, exgMaxOf,
    exgVal, List.map, List.foldr, max_def]
  norm_num

/- C2: deduplication. -/

theorem iou_comm (b1 b2 : ℤ × ℤ × ℤ × ℤ) : iou b1 b2 = iou b2 b1 := by
  unfold iou
  rw [max_comm b1.1 b2.1, max_comm b1.2.1 b2.2.1,
    min_comm (b1.1 + b1.2.2.1) (b2.1 + b2.2.2.1),
    min_comm (b1.2.1 + b1.2.2.2) (b2.2.1 + b2.2.2.2)]
  ring_nf

theorem dedupGo_sublist (thr : ℚ) :
    ∀ (l kept : List Region), List.Sublist (dedupGo thr kept l) (kept ++ l)
  | [], kept => by simp [dedupGo]
  | r :: rs, kept => by
      unfold dedupGo
      split
      · exact (dedupGo_sublist thr rs kept).trans
          (List.Sublist.append_left (List.sublist_cons_self r rs) kept)
      · have h2 := dedupGo_sublist thr rs (kept ++ [r])
        simpa using h2

theorem dedupGo_pairwise (thr : ℚ) :
    ∀ (l kept : List Region),
      kept.Pairwise (fun a b => iou a.bbox b.bbox ≤ thr) →
      (dedupGo thr kept l).Pairwise (fun a b => iou a.bbox b.bbox ≤ thr)
  | [], _, hk => hk
  | r :: rs, kept, hk => by
      unfold dedupGo
      split
      · exact dedupGo_pairwise thr rs kept hk
      · next hAny =>
          apply dedupGo_pairwise thr rs
          rw [List.pairwise_append]
          refine ⟨hk, by simp, ?_⟩
          intro a ha b hb
          simp only [List.mem_singleton] at hb
          subst hb
          have hno : ¬ (thr < iou b.bbox a.bbox) := by
            intro hlt
            exact hAny (List.any_eq_true.mpr ⟨a, ha, by simpa using hlt⟩)
          rw [iou_comm]
          exact le_of_not_lt hno

/-- C2: `remove_duplicate_trees` returns a selection of its input regions
(a sub-permutation: the output is drawn from the input, reordered by quality),
so its length never exceeds the input length; any two output regions have
bounding-box IoU ≤ the overlap threshold; and the greedy pass runs over the
input sorted descending by the quality score
`0.5·solidity + 0.3·circularity + 0.2·min(area/10000, 1)`. -/
theorem C2_dedup_shrinks_and_bounds_iou (regions : List Region) (thr : ℚ) :
    List.Subperm (remove_duplicate_trees regions thr) regions ∧
    (remove_duplicate_trees regions thr).length ≤ regions.length ∧
    (remove_duplicate_trees regions thr).Pairwise
      (fun a b => iou a.bbox b.bbox ≤ thr) ∧
    (List.insertionSort qualityGe regions).Pairwise qualityGe := by
  have hsub : List.Sublist (remove_duplicate_trees regions thr)
      (List.insertionSort qualityGe regions) := by
    simpa using dedupGo_sublist thr (List.insertionSort qualityGe regions) []
  have hperm : List.Perm (List.insertionSort qualityGe regions) regions :=
    List.perm_insertionSort _ _
  have hsp : List.Subperm (remove_duplicate_trees regions thr) regions :=
    hsub.subperm.trans hperm.subperm
  exact ⟨hsp, hsp.length_le,
    dedupGo_pairwise thr (List.insertionSort qualityGe regions) []
      (List.Pairwise.nil),
    List.sorted_insertionSort qualityGe regions⟩

/- C3: deterministic ordering and numbering. -/

theorem keyLe_keys_eq {a b : Region} (h1 : keyLe a b) (h2 : keyLe b a) :
    sortKey a = sortKey b := by
  unfold keyLe at *
  have hh : (sortKey a).1 = (sortKey b).1 ∧ (sortKey a).2 = (sortKey b).2 := by omega
  exact Prod.ext hh.1 hh.2

theorem sorted_unique_of_nodup_keys :
    ∀ (l₁ l₂ : List Region), List.Perm l₁ l₂ → l₁.Pairwise keyLe →
      l₂.Pairwise keyLe → (l₁.map sortKey).Nodup → l₁ = l₂
  | [], _, hp, _, _, _ => hp.nil_eq
  | a :: t₁, l₂, hp, hs₁, hs₂, hnd => by
      cases l₂ with
      | nil => exact absurd hp.eq_nil (by simp)
      | cons b t₂ =>
          have hnd' : (∀ x ∈ t₁, ¬ sortKey x = sortKey a) ∧
              (t₁.map sortKey).Nodup := by simpa using hnd
          by_cases hab : a = b
          · subst hab
            have ht := sorted_unique_of_nodup_keys t₁ t₂ hp.cons_inv
              (List.pairwise_cons.mp hs₁).2 (List.pairwise_cons.mp hs₂).2 hnd'.2
            rw [ht]
          · exfalso
            have haIn : a ∈ t₂ := by
              have hmem : a ∈ b :: t₂ := hp.subset (by simp)
              rcases List.mem_cons.mp hmem with h | h
              · exact absurd h hab
              · exact h
            have hbIn : b ∈ t₁ := by
              have hmem : b ∈ a :: t₁ := hp.symm.subset (by simp)
              rcases List.mem_cons.mp hmem with h | h
              · exact absurd h.symm hab
              · exact h
            have hk : sortKey a = sortKey b :=
              keyLe_keys_eq ((List.pairwise_cons.mp hs₁).1 b hbIn)
                ((List.pairwise_cons.mp hs₂).1 a haIn)
            exact hnd'.1 b hbIn hk.symm

theorem annotate_numbers (l : List Region) :
    (annotate_trees_enhanced l).map TreeDatum.number = List.range' 1 l.length := by
  have h1 : (annotate_trees_enhanced l).map TreeDatum.number
      = l.enum.map (fun ir => ir.1 + 1) := by
    simp [annotate_trees_enhanced, List.map_map]
  rw [h1]
  have h2 : l.enum.map (fun ir => ir.1 + 1)
      = (l.enum.map Prod.fst).map (fun x => x + 1) := by
    rw [List.map_map]
    rfl
  rw [h2, List.enum_map_fst, List.range'_eq_map_range]
  exact List.map_congr_left (fun x _ => by omega)

/-- C3 (amended): the final region list is sorted by the key
`(centroid.y // 100, centroid.x)`; sorting twice yields the same list as
sorting once; the numbering assigned by the annotator over the sorted list
is exactly `1..N` with no gaps or repeats; and — *provided the sort keys are
pairwise distinct* — the sorted order is independent of the detection order.
(The unqualified independence claimed by the spec fails when two regions tie
on the key, see the counterexample.) -/
theorem C3_sorting_and_numbering (l : List Region) :
    (sortRegions l).Pairwise keyLe ∧
    sortRegions (sortRegions l) = sortRegions l ∧
    (annotate_trees_enhanced (sortRegions l)).map TreeDatum.number
      = List.range' 1 l.length ∧
    ((annotate_trees_enhanced (sortRegions l)).map TreeDatum.number).Nodup ∧
    ((l.map sortKey).Nodup →
      ∀ l' : List Region, List.Perm l' l → sortRegions l' = sortRegions l) := by
  have hsorted : (sortRegions l).Pairwise keyLe := List.sorted_insertionSort keyLe l
  have hlen : (sortRegions l).length = l.length :=
    (List.perm_insertionSort keyLe l).length_eq
  refine ⟨hsorted, ?_, ?_, ?_, ?_⟩
  · exact List.Sorted.insertionSort_eq hsorted
  · rw [annotate_numbers, hlen]
  · rw [annotate_numbers, hlen]
    exact List.nodup_range' 1 l.length
  · intro hnd l' hperm
    apply sorted_unique_of_nodup_keys
    · exact (List.perm_insertionSort keyLe l').trans
        (hperm.trans (List.perm_insertionSort keyLe l).symm)
    · exact List.sorted_insertionSort keyLe l'
    · exact hsorted
    · have hp : List.Perm ((sortRegions l').map sortKey) (l.map sortKey) :=
        ((List.perm_insertionSort keyLe l').trans hperm).map sortKey
      exact hp.nodup_iff.mpr hnd

/-- C3 counterexample: `rTieA ≠ rTieB` share the sort key `(0, 5)`
(centroids `(5,5)` and `(5,90)` fall into the same 100-px row bucket with
equal x), and sorting the two detection orders yields different region
orders — so the numbering is *not* independent of detection order, refuting
that part of the claim. -/
theorem C3_counterexample :
    List.Perm [rTieB, rTieA] [rTieA, rTieB] ∧
    rTieA ≠ rTieB ∧
    sortKey rTieA = sortKey rTieB ∧
    (sortRegions [rTieB, rTieA]).map Region.label
      ≠ (sortRegions [rTieA, rTieB]).map Region.label := by
  refine ⟨List.Perm.swap rTieA rTieB [], ?_, by decide, by decide⟩
  intro heq
  exact absurd (congrArg Region.label heq) (by decide)

/-- Witness for C3: on two regions with distinct keys the numbering is
`[1, 2]` and the sorted order is independent of the input order. -/
theorem C3_sorting_and_numbering_witness :
    (annotate_trees_enhanced (sortRegions [rKeyC, rKeyD])).map TreeDatum.number
      = [1, 2] ∧
    sortRegions [rKeyD, rKeyC] = sortRegions [rKeyC, rKeyD] := by
  have h := C3_sorting_and_numbering [rKeyC, rKeyD]
  refine ⟨?_, h.2.2.2.2 (by decide) [rKeyD, rKeyC] (List.Perm.swap rKeyC rKeyD [])⟩
  rw [h.2.2.1]
  rfl

/- C4: fatal-error behaviour of the orchestrator. -/

theorem stitch_none_of_short (decode : String → Option Frame)
    (stitcher : List Frame → Option Frame) (paths : List String)
    (h : paths.length < 2) (mw : ℕ) :
    stitch_panorama decode stitcher paths mw = none := by
  unfold stitch_panorama
  rw [if_pos h]

theorem pyIdx_lt (n i : ℕ) (h25 : 25 < n) (hi : i < 25) :
    (pyInt ((i : ℚ) * ((n : ℚ) / 25))).toNat < n := by
  have hq : (0 : ℚ) ≤ (i : ℚ) * ((n : ℚ) / 25) := by positivity
  have hflo := pyInt_eq_floor _ hq
  have hlen : (0 : ℚ) < (n : ℚ) / 25 := by
    have hn : (0 : ℚ) < (n : ℚ) := by
      have : 0 < n := by omega
      exact_mod_cast this
    positivity
  have hqlt : (i : ℚ) * ((n : ℚ) / 25) < (n : ℚ) := by
    have h1 : ((i : ℚ)) < 25 := by exact_mod_cast hi
    calc (i : ℚ) * ((n : ℚ) / 25)
        < 25 * ((n : ℚ) / 25) := mul_lt_mul_of_pos_right h1 hlen
      _ = (n : ℚ) := by field_simp
  have hfl : ⌊(i : ℚ) * ((n : ℚ) / 25)⌋ < (n : ℤ) := by
    apply Int.floor_lt.mpr
    push_cast
    exact hqlt
  have h0 : 0 ≤ ⌊(i : ℚ) * ((n : ℚ) / 25)⌋ := Int.floor_nonneg.mpr hq
  rw [hflo]
  omega

theorem samplePaths_subset (paths : List String) :
    ∀ p ∈ samplePaths paths, p ∈ paths := by
  intro p hp
  unfold samplePaths at hp
  by_cases h25 : 25 < paths.length
  · rw [if_pos h25] at hp
    obtain ⟨i, hi, hfi⟩ := List.mem_map.mp hp
    rw [List.mem_range] at hi
    have hidx := pyIdx_lt paths.length i h25 hi
    rw [← hfi, List.getD_eq_getElem paths "" hidx]
    exact List.getElem_mem hidx
  · rw [if_neg h25] at hp
    exact hp

theorem stitch_none_of_all_fail (decode : String → Option Frame)
    (stitcher : List Frame → Option Frame) (paths : List String) (mw : ℕ)
    (hall : ∀ p ∈ paths, decode p = none) :
    stitch_panorama decode stitcher paths mw = none := by
  unfold stitch_panorama
  split
  · rfl
  · have himg : stitchInputImages decode paths mw = [] := by
      unfold stitchInputImages
      apply List.filterMap_eq_nil_iff.mpr
      intro p hp
      rw [hall p (samplePaths_subset paths p hp)]
      rfl
    rw [himg]
    simp

/-- C4 counterexample: with input `["bad.jpg", "good.jpg"]` where only the
*second* path decodes, stitching sees a single decodable image and returns
`None`, and the fallback `cv2.imread(image_paths[0])` fails — the invocation
raises "Could not load any images" even though one input image decodes.
This refutes the claimed "if and only if". -/
theorem C4_counterexample :
    (∃ p ∈ ["bad.jpg", "good.jpg"], (decodeFirstBad p).isSome = true) ∧
    process_panoramic_images (T := Unit) decodeFirstBad (fun _ => none) [] []
      ["bad.jpg", "good.jpg"] none none none none []
      = Except.error "Could not load any images" := by
  refine ⟨⟨"good.jpg", by simp, by rfl⟩, by rfl⟩

/-- C4 (amended): for a nonempty input list, the invocation raises exactly
when stitching yields no panorama *and the first image fails to decode*
(for a single path, stitching is vacuously `None`).  In particular, if no
input image decodes at all, it raises; but it may also raise when a
non-first image decodes (see the counterexample). -/
theorem C4_error_iff (T : Type) (decode : String → Option Frame)
    (stitcher : List Frame → Option Frame) (ws : List (ℤ × ContourMeas))
    (ct : List ContourData) (paths : List String) (minA maxA : Option ℤ)
    (model : Option (T → ℕ × ℚ)) (tf : Option (ℤ × ℤ × ℤ × ℤ → Option T))
    (names : List String) (hne : paths ≠ []) :
    ((process_panoramic_images decode stitcher ws ct paths minA maxA
        model tf names).isOk = false
      ↔ (stitch_panorama decode stitcher paths 4000 = none ∧
          decode paths.headI = none))
    ∧ ((∀ p ∈ paths, decode p = none) →
        (process_panoramic_images decode stitcher ws ct paths minA maxA
          model tf names).isOk = false) := by
  obtain ⟨a, as, rfl⟩ := List.exists_cons_of_ne_nil hne
  have hmain : (process_panoramic_images decode stitcher ws ct (a :: as) minA
      maxA model tf names).isOk = false
      ↔ (stitch_panorama decode stitcher (a :: as) 4000 = none ∧
          decode (a :: as).headI = none) := by
    by_cases h2 : 2 ≤ (a :: as).length
    · have h2' : 1 ≤ as.length := by simpa using h2
      rcases hst : stitch_panorama decode stitcher (a :: as) 4000 with _ | p
      · rcases hdec : decode a with _ | f
        · simp [process_panoramic_images, panoramaOf, h2, h2', hst, hdec, Except.isOk, Except.toBool]
        · simp [process_panoramic_images, panoramaOf, h2, h2', hst, hdec, Except.isOk, Except.toBool]
      · simp [process_panoramic_images, panoramaOf, h2, h2', hst, Except.isOk, Except.toBool]
    · have h2' : as.length = 0 := by simp only [List.length_cons] at h2; omega
      have hst := stitch_none_of_short decode stitcher (a :: as) (by simp [h2']) 4000
      rcases hdec : decode a with _ | f
      · simp [process_panoramic_images, panoramaOf, h2, h2', hst, hdec, Except.isOk, Except.toBool]
      · simp [process_panoramic_images, panoramaOf, h2, h2', hst, hdec, Except.isOk, Except.toBool]
  refine ⟨hmain, fun hall => hmain.mpr ⟨?_, hall a (by simp)⟩⟩
  exact stitch_none_of_all_fail decode stitcher (a :: as) 4000 hall

/-- Witness for C4 (amended): the counterexample invocation indeed raises,
derived through the amended characterisation. -/
theorem C4_error_iff_witness :
    (process_panoramic_images (T := Unit) decodeFirstBad (fun _ => none) [] []
      ["bad.jpg", "good.jpg"] none none none none []).isOk = false := by
  exact (C4_error_iff Unit decodeFirstBad (fun _ => none) [] []
    ["bad.jpg", "good.jpg"] none none none none [] (by simp)).1.mpr
    ⟨by rfl, by rfl⟩

/- C5 / C10: the classification stage. -/

theorem applyPred_shifted {T : Type} (names : List String) (md : T → ℕ × ℚ)
    (x : Region) :
    ∀ (ts : List (ℕ × T)) (l : List Region),
      (ts.map (fun it => (it.1 + 1, it.2))).foldl (applyPred names md) (x :: l)
        = x :: ts.foldl (applyPred names md) l
  | [], _ => rfl
  | (i, t) :: ts, l => by
      simp only [List.map_cons, List.foldl_cons]
      have h1 : applyPred names md (x :: l) (i + 1, t)
          = x :: applyPred names md l (i, t) := rfl
      rw [h1]
      exact applyPred_shifted names md x ts (applyPred names md l (i, t))

theorem pass1_apply {T : Type} (W H : ℕ) (tf : ℤ × ℤ × ℤ × ℤ → Option T)
    (md : T → ℕ × ℚ) (names : List String) :
    ∀ regions : List Region,
      (pass1 W H tf regions).2.foldl (applyPred names md) (pass1 W H tf regions).1
        = regions.map (classifyOne W H tf md names)
  | [] => rfl
  | r :: rs => by
      simp only [pass1, List.map_cons]
      by_cases hc : cropEmpty (cropRect W H r.bbox) = true
      · rw [if_pos hc]
        simp only
        rw [applyPred_shifted, pass1_apply W H tf md names rs]
        have hone : classifyOne W H tf md names r = markUnknown r := by
          unfold classifyOne
          rw [if_pos hc]
        rw [hone]
      · rw [if_neg hc]
        rcases htf : tf (cropRect W H r.bbox) with _ | t
        · simp only
          rw [applyPred_shifted, pass1_apply W H tf md names rs]
          have hone : classifyOne W H tf md names r = markUnknown r := by
            unfold classifyOne
            rw [if_neg hc, htf]
          rw [hone]
        · simp only [List.foldl_cons]
          have h0 : applyPred names md
              (r :: (pass1 W H tf rs).1) (0, t)
              = (classifyOne W H tf md names r) :: (pass1 W H tf rs).1 := by
            unfold applyPred modifyIdx classifyOne
            rw [if_neg hc, htf]
          rw [h0, applyPred_shifted, pass1_apply W H tf md names rs]

/-- C5: classification failures are isolated per region.  The whole batched
classification stage equals an independent per-region classification, so a
failing region never affects the others, the result covers every region
(length preserved), and a region whose crop is empty or whose transform
raises is recorded as `'Unknown'` with confidence `0.0`. -/
theorem C5_per_region_failure_isolated {T : Type} (W H : ℕ)
    (tf : ℤ × ℤ × ℤ × ℤ → Option T) (md : T → ℕ × ℚ) (names : List String)
    (regions : List Region) :
    (classifyStage W H tf md names regions).1
      = regions.map (classifyOne W H tf md names) ∧
    (classifyStage W H tf md names regions).1.length = regions.length ∧
    (∀ r ∈ regions, prepFails W H tf r →
      (classifyOne W H tf md names r).disease = some "Unknown" ∧
      (classifyOne W H tf md names r).confidence = some 0) := by
  have hmap : (classifyStage W H tf md names regions).1
      = regions.map (classifyOne W H tf md names) :=
    pass1_apply W H tf md names regions
  refine ⟨hmap, by rw [hmap]; simp, ?_⟩
  intro r _ hfail
  have hone : classifyOne W H tf md names r = markUnknown r := by
    unfold classifyOne
    rcases hfail with hc | htf
    · rw [if_pos hc]
    · rcases htf2 : tf (cropRect W H r.bbox) with _ | t
      · by_cases hc : cropEmpty (cropRect W H r.bbox) = true
        · rw [if_pos hc]
        · rw [if_neg hc, htf2]
      · rw [htf2] at htf
        simp at htf
  rw [hone]
  exact ⟨rfl, rfl⟩

/-- Witness for C5: a transform that always raises marks the (non-empty)
crop of a concrete region `'Unknown'` with confidence 0, and the stage still
covers the single region. -/
theorem C5_per_region_failure_isolated_witness :
    (classifyStage (T := Unit) 100 100 (fun _ => none) (fun _ => (0, 1))
      ["Healthy"] [rTieA]).1 = [markUnknown rTieA] ∧
    (markUnknown rTieA).disease = some "Unknown" ∧
    (markUnknown rTieA).confidence = some 0 := by
  have h := C5_per_region_failure_isolated (T := Unit) 100 100 (fun _ => none)
    (fun _ => (0, 1)) ["Healthy"] [rTieA]
  have hfail : prepFails (T := Unit) 100 100 (fun _ => none) rTieA := Or.inr rfl
  have hu := h.2.2 rTieA (by simp) hfail
  refine ⟨?_, rfl, rfl⟩
  rw [h.1]
  simp only [List.map_cons, List.map_nil]
  have hone : classifyOne (T := Unit) 100 100 (fun _ => none) (fun _ => (0, 1))
      ["Healthy"] rTieA = markUnknown rTieA := by
    unfold classifyOne
    by_cases hc : cropEmpty (cropRect 100 100 rTieA.bbox) = true
    · rw [if_pos hc]
    · rw [if_neg hc]
  rw [hone]

theorem bump_sumVals (m : List (String × ℕ)) (k : String) :
    sumVals (bump m k) = sumVals m + 1 := by
  induction m with
  | nil => rfl
  | cons kv rest ih =>
      obtain ⟨k', v⟩ := kv
      unfold bump
      by_cases hk : k' = k
      · rw [if_pos hk]
        simp [sumVals]
        omega
      · rw [if_neg hk]
        simp only [sumVals, List.map_cons, List.sum_cons] at *
        omega

theorem foldl_bump_sumVals :
    ∀ (labels : List String) (init : List (String × ℕ)),
      sumVals (labels.foldl bump init) = sumVals init + labels.length
  | [], _ => by simp
  | k :: rest, init => by
      simp only [List.foldl_cons, List.length_cons]
      rw [foldl_bump_sumVals rest (bump init k), bump_sumVals]
      omega

theorem pass1_snd_length {T : Type} (W H : ℕ) (tf : ℤ × ℤ × ℤ × ℤ → Option T) :
    ∀ regions : List Region,
      (pass1 W H tf regions).2.length
        = (regions.filter (prepOk W H tf)).length
  | [] => rfl
  | r :: rs => by
      simp only [pass1, List.filter_cons]
      by_cases hc : cropEmpty (cropRect W H r.bbox) = true
      · rw [if_pos hc]
        have hok : prepOk W H tf r = false := by
          simp [prepOk, hc]
        rw [hok]
        simp only [Bool.false_eq_true, if_false, List.length_map]
        exact pass1_snd_length W H tf rs
      · rw [if_neg hc]
        rcases htf : tf (cropRect W H r.bbox) with _ | t
        · have hok : prepOk W H tf r = false := by
            simp [prepOk, hc, htf]
          rw [hok]
          simp only [Bool.false_eq_true, if_false, List.length_map]
          exact pass1_snd_length W H tf rs
        · have hok : prepOk W H tf r = true := by
            simp [prepOk, hc, htf]
          rw [hok]
          simp only [if_true, List.length_cons, List.length_map]
          rw [pass1_snd_length W H tf rs]

theorem filter_length_lt {α : Type} (p : α → Bool) :
    ∀ l : List α, (∃ x ∈ l, p x = false) → (l.filter p).length < l.length
  | [], h => by simp at h
  | a :: t, h => by
      by_cases hpa : p a = true
      · obtain ⟨x, hx, hpx⟩ := h
        rcases List.mem_cons.mp hx with rfl | hxt
        · rw [hpa] at hpx
          cases hpx
        · have hlt := filter_length_lt p t ⟨x, hxt, hpx⟩
          rw [List.filter_cons_of_pos hpa]
          simp only [List.length_cons]
          omega
      · rw [List.filter_cons_of_neg (by simpa using hpa)]
        have hle := List.length_filter_le p t
        simp only [List.length_cons]
        omega

/-- C10: the disease histogram tallies exactly the regions whose crops were
non-empty and successfully transformed: the sum of its values equals the
number of such regions, is at most the number of regions, and is strictly
less as soon as one region's crop preparation fails. -/
theorem C10_histogram_counts_classified {T : Type} (W H : ℕ)
    (tf : ℤ × ℤ × ℤ × ℤ → Option T) (md : T → ℕ × ℚ) (names : List String)
    (regions : List Region) :
    sumVals (classifyStage W H tf md names regions).2
      = (regions.filter (prepOk W H tf)).length ∧
    sumVals (classifyStage W H tf md names regions).2 ≤ regions.length ∧
    ((∃ r ∈ regions, prepFails W H tf r) →
      sumVals (classifyStage W H tf md names regions).2 < regions.length) := by
  have hsum : sumVals (classifyStage W H tf md names regions).2
      = (regions.filter (prepOk W H tf)).length := by
    unfold classifyStage
    simp only
    rw [foldl_bump_sumVals]
    simp only [sumVals, List.map_nil, List.sum_nil, List.length_map, Nat.zero_add]
    exact pass1_snd_length W H tf regions
  refine ⟨hsum, ?_, ?_⟩
  · rw [hsum]
    exact List.length_filter_le _ _
  · intro hex
    rw [hsum]
    apply filter_length_lt
    obtain ⟨r, hr, hfail⟩ := hex
    refine ⟨r, hr, ?_⟩
    rcases hfail with hc | ht
    · simp [prepOk, hc]
    · simp [prepOk, Option.isNone_iff_eq_none.mp ht]

/-- Witness for C10: with an always-raising transform the histogram is empty
and its total (0) is strictly below the region count (1). -/
theorem C10_histogram_counts_classified_witness :
    sumVals (classifyStage (T := Unit) 100 100 (fun _ => none)
      (fun _ => (0, 1)) ["Healthy"] [rTieA]).2 < ([rTieA] : List Region).length := by
  exact (C10_histogram_counts_classified (T := Unit) 100 100 (fun _ => none)
    (fun _ => (0, 1)) ["Healthy"] [rTieA]).2.2 ⟨rTieA, by simp, Or.inr rfl⟩

/- C7 / C6 helper lemmas: where segmenter regions come from. -/

theorem buildRegion_inv {minA maxA : ℚ} {lab : ℤ} {km : Bool}
    {c : ContourMeas} {r : Region} (h : buildRegion minA maxA lab km c = some r) :
    regionInBand minA maxA r ∧ r.area = c.area ∧
    r.solidity = c.area / (c.hullArea + 1/100000) ∧
    r.disease = none ∧ r.confidence = none ∧ r.hasMask = km := by
  unfold buildRegion at h
  by_cases h1 : c.area < minA ∨ maxA < c.area
  · rw [if_pos h1] at h
    exact Option.noConfusion h
  · rw [if_neg h1] at h
    by_cases h2 : (c.bw : ℚ) / ((c.bh : ℚ) + 1/100000) < 1/4 ∨
        4 < (c.bw : ℚ) / ((c.bh : ℚ) + 1/100000)
    · rw [if_pos h2] at h
      exact Option.noConfusion h
    · rw [if_neg h2] at h
      by_cases h3 : c.area / (c.hullArea + 1/100000) < 3/10
      · rw [if_pos h3] at h
        exact Option.noConfusion h
      · rw [if_neg h3] at h
        injection h with h
        subst h
        push_neg at h1 h2 h3
        exact ⟨⟨h1.1, h1.2, h2.1, h2.2, h3⟩, rfl, rfl, rfl, rfl, rfl⟩

theorem buildRegion_disease {minA maxA : ℚ} {lab : ℤ} {km : Bool}
    {c : ContourMeas} {r : Region} (h : buildRegion minA maxA lab km c = some r) :
    r.disease = none ∧ r.confidence = none := by
  have hi := buildRegion_inv h
  exact ⟨hi.2.2.2.1, hi.2.2.2.2.1⟩

theorem watershed_mem {h w : ℕ} {minA? maxA? : Option ℤ}
    {cs : List (ℤ × ContourMeas)} {r : Region}
    (hr : r ∈ segment_individual_trees_watershed h w minA? maxA? cs) :
    ∃ lc ∈ cs, buildRegion
      ((pyOrInt minA? (defaultMinArea ((h : ℤ) * (w : ℤ)))) : ℚ)
      ((pyOrInt maxA? (defaultMaxArea ((h : ℤ) * (w : ℤ)))) : ℚ)
      lc.1 true lc.2 = some r := by
  unfold segment_individual_trees_watershed at hr
  simp only [List.mem_filterMap] at hr
  obtain ⟨lc, hlc, hb⟩ := hr
  exact ⟨lc, hlc, hb⟩

theorem splitRegions_mem (h w : ℕ) (contArea : ℚ) (numLabels : ℕ) :
    ∀ (comps : List SplitComp) (acc : List Region) (r : Region),
      r ∈ splitRegions h w contArea numLabels acc comps →
      r ∈ acc ∨ splitRegionShape r
  | [], _, r, hr => Or.inl hr
  | comp :: comps, acc, r, hr => by
      rw [splitRegions, List.foldl_cons] at hr
      have hrec := splitRegions_mem h w contArea numLabels comps _ r
        (by rw [splitRegions]; exact hr)
      rcases hrec with hin | hshape
      · by_cases hsa : comp.statArea < 50
        · rw [if_pos hsa] at hin
          exact Or.inl hin
        · rw [if_neg hsa] at hin
          by_cases hrw : (min (w : ℤ) (comp.scx + max (isqrt (contArea / (numLabels : ℚ) / npPi)) 20)
                - max 0 (comp.scx - max (isqrt (contArea / (numLabels : ℚ) / npPi)) 20) < 10)
              ∨ (min (h : ℤ) (comp.scy + max (isqrt (contArea / (numLabels : ℚ) / npPi)) 20)
                - max 0 (comp.scy - max (isqrt (contArea / (numLabels : ℚ) / npPi)) 20) < 10)
          · rw [if_pos hrw] at hin
            exact Or.inl hin
          · rw [if_neg hrw] at hin
            rcases List.mem_append.mp hin with hin2 | hin2
            · exact Or.inl hin2
            · right
              push_neg at hrw
              simp only [List.mem_singleton] at hin2
              subst hin2
              exact ⟨rfl, rfl, rfl, rfl, hrw.1, hrw.2, rfl, rfl⟩
      · exact Or.inr hshape

theorem contourStep_mem {h w : ℕ} {minA maxA : ℚ} {acc : List Region}
    {cd : ContourData} {r : Region} (hr : r ∈ contourStep h w minA maxA acc cd) :
    r ∈ acc ∨ (∃ lab, buildRegion minA maxA lab false cd.meas = some r) ∨
      splitRegionShape r := by
  unfold contourStep at hr
  split_ifs at hr with hc1 hc2
  · exact Or.inl hr
  · rcases splitRegions_mem h w cd.meas.area (cd.split.length + 1) cd.split acc r hr
      with hin | hshape
    · exact Or.inl hin
    · exact Or.inr (Or.inr hshape)
  · rcases hb : buildRegion minA maxA ((acc.length : ℤ)) false cd.meas with _ | r2
    · rw [hb] at hr
      exact Or.inl hr
    · rw [hb] at hr
      rcases List.mem_append.mp hr with hin | hin
      · exact Or.inl hin
      · simp only [List.mem_singleton] at hin
        subst hin
        exact Or.inr (Or.inl ⟨(acc.length : ℤ), hb⟩)

theorem contour_fold_mem (h w : ℕ) (minA maxA : ℚ) :
    ∀ (cds : List ContourData) (acc : List Region) (r : Region),
      r ∈ cds.foldl (contourStep h w minA maxA) acc →
      r ∈ acc ∨ (∃ cd ∈ cds, ∃ lab, buildRegion minA maxA lab false cd.meas = some r) ∨
        splitRegionShape r
  | [], _, r, hr => Or.inl hr
  | cd :: cds, acc, r, hr => by
      rw [List.foldl_cons] at hr
      rcases contour_fold_mem h w minA maxA cds _ r hr with hin | hb | hshape
      · rcases contourStep_mem hin with hin2 | hb2 | hshape2
        · exact Or.inl hin2
        · obtain ⟨lab, hb2⟩ := hb2
          exact Or.inr (Or.inl ⟨cd, by simp, lab, hb2⟩)
        · exact Or.inr (Or.inr hshape2)
      · obtain ⟨cd2, hcd2, lab, hb2⟩ := hb
        exact Or.inr (Or.inl ⟨cd2, by simp [hcd2], lab, hb2⟩)
      · exact Or.inr (Or.inr hshape)

theorem contour_mem {h w : ℕ} {minA? maxA? : Option ℤ} {cds : List ContourData}
    {r : Region} (hr : r ∈ segment_individual_trees_contour h w minA? maxA? cds) :
    (∃ cd ∈ cds, ∃ lab, buildRegion
      ((pyOrInt minA? (defaultMinArea ((h : ℤ) * (w : ℤ)))) : ℚ)
      ((pyOrInt maxA? (defaultMaxArea ((h : ℤ) * (w : ℤ)))) : ℚ)
      lab false cd.meas = some r) ∨ splitRegionShape r := by
  unfold segment_individual_trees_contour at hr
  rcases contour_fold_mem h w _ _ cds [] r hr with hin | hb | hshape
  · cases hin
  · exact Or.inl hb
  · exact Or.inr hshape

theorem remove_duplicate_trees_mem (regions : List Region) (thr : ℚ) :
    ∀ r ∈ remove_duplicate_trees regions thr, r ∈ regions := by
  intro r hr
  have hsub := dedupGo_sublist thr (List.insertionSort qualityGe regions) []
  have hmem : r ∈ List.insertionSort qualityGe regions :=
    hsub.subset (by simpa [remove_duplicate_trees] using hr)
  exact (List.mem_insertionSort qualityGe).mp hmem

theorem annotate_length (l : List Region) :
    (annotate_trees_enhanced l).length = l.length := by
  simp [annotate_trees_enhanced]

theorem annotate_fields_mem (l : List Region) :
    ∀ t ∈ annotate_trees_enhanced l,
      ∃ r ∈ l, t.disease = r.disease ∧ t.confidence = r.confidence := by
  intro t ht
  unfold annotate_trees_enhanced at ht
  obtain ⟨ir, hir, rfl⟩ := List.mem_map.mp ht
  refine ⟨ir.2, ?_, rfl, rfl⟩
  have hmem : ir.2 ∈ l.enum.map Prod.snd := List.mem_map_of_mem Prod.snd hir
  rwa [List.enum_map_snd] at hmem

theorem pool_disease (hseg wseg : ℕ) (minA? maxA? : Option ℤ)
    (ws : List (ℤ × ContourMeas)) (ct : List ContourData) :
    ∀ r ∈ (if (segment_individual_trees_watershed hseg wseg minA? maxA? ws).length < 5
        then segment_individual_trees_watershed hseg wseg minA? maxA? ws
          ++ segment_individual_trees_contour hseg wseg minA? maxA? ct
        else segment_individual_trees_watershed hseg wseg minA? maxA? ws),
      r.disease = none ∧ r.confidence = none := by
  intro r hr
  split at hr
  · rcases List.mem_append.mp hr with h2 | h2
    · obtain ⟨lc, _, hb⟩ := watershed_mem h2
      exact buildRegion_disease hb
    · rcases contour_mem h2 with ⟨cd, _, lab, hb⟩ | hs
      · exact buildRegion_disease hb
      · exact ⟨hs.1, hs.2.1⟩
  · obtain ⟨lc, _, hb⟩ := watershed_mem hr
    exact buildRegion_disease hb

theorem segmentAndOrder_disease (ws : List (ℤ × ContourMeas))
    (ct : List ContourData) (minA? maxA? : Option ℤ) (pano : Frame) :
    ∀ r ∈ segmentAndOrder ws ct minA? maxA? pano,
      r.disease = none ∧ r.confidence = none := by
  intro r hr
  simp only [segmentAndOrder] at hr
  rw [sortRegions, List.mem_insertionSort] at hr
  split at hr
  · split at hr
    · obtain ⟨r0, hr0, rfl⟩ := List.mem_map.mp hr
      exact pool_disease _ _ _ _ _ _ r0 (remove_duplicate_trees_mem _ _ r0 hr0)
    · exact pool_disease _ _ _ _ _ _ r (remove_duplicate_trees_mem _ _ r hr)
  · exact pool_disease _ _ _ _ _ _ r (remove_duplicate_trees_mem _ _ r hr)

/-- C7: when the classifier is missing (no model, no transform, or an empty
class-name list — all falsy in the source's `if model and transform and
class_names`), the classification stage is skipped: any successful result
has an empty disease histogram, every returned tree entry has
`disease = None` and `confidence = None`, while segmentation and counting
still run (`num_trees` equals the number of returned tree entries, which
equals the number of segmented regions). -/
theorem C7_no_classifier_skips_classification {T : Type}
    (decode : String → Option Frame) (stitcher : List Frame → Option Frame)
    (ws : List (ℤ × ContourMeas)) (ct : List ContourData)
    (paths : List String) (minA maxA : Option ℤ)
    (model : Option (T → ℕ × ℚ)) (tf : Option (ℤ × ℤ × ℤ × ℤ → Option T))
    (names : List String) (res : PipeResult)
    (hmiss : model = none ∨ tf = none ∨ names = [])
    (hok : process_panoramic_images decode stitcher ws ct paths minA maxA
      model tf names = Except.ok res) :
    res.disease_counts = [] ∧
    (∀ t ∈ res.tree_data, t.disease = none ∧ t.confidence = none) ∧
    res.num_trees = res.tree_data.length ∧
    res.tree_data.length = res.tree_regions.length := by
  unfold process_panoramic_images at hok
  by_cases hemp : paths.isEmpty
  · rw [if_pos hemp] at hok
    exact absurd hok (by simp)
  · rw [if_neg hemp] at hok
    rcases hpan : panoramaOf decode stitcher paths with _ | pano
    · rw [hpan] at hok
      exact absurd hok (by simp)
    · rw [hpan] at hok
      simp only at hok
      have hclass : classifiedOf model tf names pano
          (segmentAndOrder ws ct minA maxA pano)
          = (segmentAndOrder ws ct minA maxA pano, []) := by
        rcases hmiss with rfl | rfl | rfl
        · rfl
        · cases model with
          | none => rfl
          | some md => rfl
        · cases model with
          | none => rfl
          | some md =>
              cases tf with
              | none => rfl
              | some tf0 =>
                  simp [classifiedOf]
      rw [hclass] at hok
      have hres := (Except.ok.inj hok).symm
      subst hres
      refine ⟨rfl, ?_, rfl, ?_⟩
      · intro t ht
        simp only at ht
        obtain ⟨r, hrmem, hd, hc⟩ := annotate_fields_mem _ t ht
        have := segmentAndOrder_disease ws ct minA maxA pano r hrmem
        rw [hd, hc]
        exact this
      · simp only
        exact annotate_length _

/-- Witness for C7: a single decodable 100×100 image, no classifier. -/
theorem C7_no_classifier_skips_classification_witness :
    emptyRunResult.disease_counts = [] ∧
    (∀ t ∈ emptyRunResult.tree_data, t.disease = none ∧ t.confidence = none) ∧
    emptyRunResult.num_trees = emptyRunResult.tree_data.length ∧
    emptyRunResult.tree_data.length = emptyRunResult.tree_regions.length := by
  apply C7_no_classifier_skips_classification (T := Unit)
    (fun _ => some ⟨100, 100, 1⟩) (fun _ => none) [] [] ["a"] none none
    none none []
  · exact Or.inl rfl
  · simp only [process_panoramic_images, panoramaOf, segmentAndOrder,
      classifiedOf, segment_individual_trees_watershed,
      segment_individual_trees_contour, remove_duplicate_trees, dedupGo,
      sortRegions, List.insertionSort, annotate_trees_enhanced]
    norm_num
    rfl

/- C6: region invariants at creation. -/


/- C6: region invariants at creation. -/

theorem cSplit_eval :
    segment_individual_trees_contour 1000 1000 (some 200) (some 300)
      cSplitData = [cSplitRegion] := by
  have hisq : isqrt ((400 : ℚ) / (3 : ℚ) / npPi) = 6 := by
    unfold isqrt
    have hfl : ⌊(400 : ℚ) / 3 / npPi⌋ = 42 := by
      rw [Int.floor_eq_iff]
      constructor <;> norm_num [npPi]
    rw [hfl, show ((42 : ℤ).toNat) = 42 from rfl,
      show Nat.sqrt 42 = 6 from by norm_num]
    rfl
  unfold segment_individual_trees_contour cSplitData
  simp only [List.foldl_cons, List.foldl_nil]
  unfold contourStep splitRegions
  simp only [cSplitMeas, List.foldl_cons, List.foldl_nil, List.length_cons,
    List.length_nil]
  rw [show (pyOrInt (some 200) (defaultMinArea (((1000:ℕ):ℤ) * ((1000:ℕ):ℤ)))) = 200 from rfl,
      show (pyOrInt (some 300) (defaultMaxArea (((1000:ℕ):ℤ) * ((1000:ℕ):ℤ)))) = 300 from rfl]
  norm_num [hisq, cSplitRegion]

/-- C6 counterexample: with explicit `min_tree_area = 200`,
`max_tree_area = 300`, a 400-px contour triggers the blob-splitting path,
which emits a 25×25 box region of area 625 — outside the enforced band.
So not every region produced by the Crown Segmenter satisfies
`area ≤ max_tree_area`. -/
theorem C6_counterexample :
    cSplitRegion ∈ segment_individual_trees_contour 1000 1000 (some 200)
      (some 300) cSplitData ∧
    ¬ regionInBand
      ((pyOrInt (some 200) (defaultMinArea (((1000:ℕ):ℤ) * ((1000:ℕ):ℤ)))) : ℚ)
      ((pyOrInt (some 300) (defaultMaxArea (((1000:ℕ):ℤ) * ((1000:ℕ):ℤ)))) : ℚ)
      cSplitRegion := by
  constructor
  · rw [cSplit_eval]
    simp
  · unfold regionInBand
    rw [show (pyOrInt (some 300) (defaultMaxArea (((1000:ℕ):ℤ) * ((1000:ℕ):ℤ))))
        = 300 from rfl]
    intro hband
    have h2 := hband.2.1
    norm_num [cSplitRegion] at h2

/-- C6 (amended): every region produced by the watershed segmenter
satisfies the band (`min_tree_area ≤ area ≤ max_tree_area`, aspect ratio in
`[0.25, 4.0]`, solidity ≥ 0.3 ≥ 0) and, when the hull areas are
non-negative (true of `cv2.contourArea`), has positive area.  A region
produced by the contour fallback satisfies the same band *unless* it comes
from the blob-splitting path, which guarantees only the fixed shape
(`solidity = 0.7`, `circularity = 0.5`, box sides ≥ 10 px, so still
`area > 0`) and can violate the area band (see the counterexample). -/
theorem C6_region_invariants (h w : ℕ) (minA? maxA? : Option ℤ)
    (cs : List (ℤ × ContourMeas)) (cds : List ContourData)
    (hhullW : ∀ lc ∈ cs, (0 : ℚ) ≤ lc.2.hullArea)
    (hhullC : ∀ cd ∈ cds, (0 : ℚ) ≤ cd.meas.hullArea) :
    (∀ r ∈ segment_individual_trees_watershed h w minA? maxA? cs,
      regionInBand ((pyOrInt minA? (defaultMinArea ((h : ℤ) * (w : ℤ)))) : ℚ)
        ((pyOrInt maxA? (defaultMaxArea ((h : ℤ) * (w : ℤ)))) : ℚ) r ∧
      0 < r.area ∧ (0 : ℚ) ≤ r.solidity) ∧
    (∀ r ∈ segment_individual_trees_contour h w minA? maxA? cds,
      (regionInBand ((pyOrInt minA? (defaultMinArea ((h : ℤ) * (w : ℤ)))) : ℚ)
          ((pyOrInt maxA? (defaultMaxArea ((h : ℤ) * (w : ℤ)))) : ℚ) r ∨
        splitRegionShape r) ∧ 0 < r.area) := by
  have hpos : ∀ (c : ContourMeas) (r : Region), (0 : ℚ) ≤ c.hullArea →
      3/10 ≤ r.solidity → r.area = c.area →
      r.solidity = c.area / (c.hullArea + 1/100000) →
      0 < r.area ∧ (0 : ℚ) ≤ r.solidity := by
    intro c r hh hsol harea hs
    have hd : (0 : ℚ) < c.hullArea + 1/100000 := by linarith
    rw [hs] at hsol
    have hle : 3/10 * (c.hullArea + 1/100000) ≤ c.area := (le_div_iff₀ hd).mp hsol
    have h0 : (0 : ℚ) < 3/10 * (c.hullArea + 1/100000) := by positivity
    constructor
    · rw [harea]
      linarith
    · rw [hs]
      positivity
  constructor
  · intro r hr
    obtain ⟨lc, hlc, hb⟩ := watershed_mem hr
    have hi := buildRegion_inv hb
    have hp := hpos lc.2 r (hhullW lc hlc) hi.1.2.2.2.2 hi.2.1 hi.2.2.1
    exact ⟨hi.1, hp.1, hp.2⟩
  · intro r hr
    rcases contour_mem hr with ⟨cd, hcd, lab, hb⟩ | hs
    · have hi := buildRegion_inv hb
      have hp := hpos cd.meas r (hhullC cd hcd) hi.1.2.2.2.2 hi.2.1 hi.2.2.1
      exact ⟨Or.inl hi.1, hp.1⟩
    · refine ⟨Or.inr hs, ?_⟩
      have h10w : (10 : ℤ) ≤ r.bbox.2.2.1 := hs.2.2.2.2.1
      have h10h : (10 : ℤ) ≤ r.bbox.2.2.2 := hs.2.2.2.2.2.1
      have harea := hs.2.2.2.2.2.2.1
      rw [harea]
      have : (0 : ℤ) < r.bbox.2.2.1 * r.bbox.2.2.2 := by positivity
      exact_mod_cast this

/-- Witness for the amended C6, at the concrete splitting counterexample
input: the emitted region satisfies the split-path shape and has positive
area. -/
theorem C6_region_invariants_witness :
    ((regionInBand
        ((pyOrInt (some 200) (defaultMinArea (((1000:ℕ):ℤ) * ((1000:ℕ):ℤ)))) : ℚ)
        ((pyOrInt (some 300) (defaultMaxArea (((1000:ℕ):ℤ) * ((1000:ℕ):ℤ)))) : ℚ)
        cSplitRegion ∨ splitRegionShape cSplitRegion) ∧ 0 < cSplitRegion.area) := by
  have h := C6_region_invariants 1000 1000 (some 200) (some 300) [] cSplitData
    (by simp)
    (by
      intro cd hcd
      simp only [cSplitData, List.mem_singleton] at hcd
      subst hcd
      norm_num [cSplitMeas])
  exact h.2 cSplitRegion (by rw [cSplit_eval]; simp)

/- C8: the downscale cap before stitching. -/

theorem pyInt_natCast (n : ℕ) : pyInt ((n : ℕ) : ℚ) = (n : ℤ) := by
  simp [pyInt]

theorem resizeCap_w_le (mw : ℕ) (f : Frame) : (resizeCap mw f).w ≤ mw := by
  unfold resizeCap
  split
  · next hgt =>
      show (pyInt ((f.w : ℚ) * ((mw : ℚ) / (f.w : ℚ)))).toNat ≤ mw
      have hw0 : (0 : ℚ) < (f.w : ℚ) := by
        have h1 : 0 < f.w := by omega
        exact_mod_cast h1
      have hcalc : (f.w : ℚ) * ((mw : ℚ) / (f.w : ℚ)) = ((mw : ℕ) : ℚ) := by
        field_simp
      rw [hcalc, pyInt_natCast]
      simp
  · next hle =>
      show f.w ≤ mw
      omega

/-- C8 counterexample: a 5000-tall, 100-wide frame passes the
width-only check unresized, so an image whose *longest edge* (5000) far
exceeds the cap (4000) is handed to the stitcher — the code caps only the
width, not the longest edge. -/
theorem C8_counterexample :
    (⟨5000, 100, 3⟩ : Frame) ∈ stitchInputImages decodeTall ["a", "b"] 4000 ∧
    4000 < max (⟨5000, 100, 3⟩ : Frame).h (⟨5000, 100, 3⟩ : Frame).w := by
  constructor
  · decide
  · decide

/-- C8 (amended): every image handed to the stitcher has *width* at most
the effective cap (the given cap, auto-reduced to 2000 px when more than 15
sampled paths survive); heights are not capped (see the counterexample). -/
theorem C8_width_capped (decode : String → Option Frame) (paths : List String)
    (mw : ℕ) :
    ∀ f ∈ stitchInputImages decode paths mw,
      f.w ≤ effectiveMaxWidth mw (samplePaths paths).length := by
  intro f hf
  unfold stitchInputImages at hf
  simp only [List.mem_filterMap] at hf
  obtain ⟨p, hp, hmap⟩ := hf
  rcases hd : decode p with _ | f0
  · rw [hd] at hmap
    cases hmap
  · rw [hd] at hmap
    have hf0 : resizeCap (effectiveMaxWidth mw (samplePaths paths).length) f0
        = f := by
      simpa using hmap
    rw [← hf0]
    exact resizeCap_w_le _ f0

/-- Witness for the amended C8: the tall frame of the counterexample has
width 100 ≤ 4000. -/
theorem C8_width_capped_witness :
    (⟨5000, 100, 3⟩ : Frame).w
      ≤ effectiveMaxWidth 4000 (samplePaths ["a", "b"]).length :=
  C8_width_capped decodeTall ["a", "b"] 4000 ⟨5000, 100, 3⟩ (by decide)

/- C9: bbox representations. -/

/-- C9: each entry of the returned tree list carries its bbox in corner
format `[x, y, x+w, y+h]`, derived from the internal region bbox stored as
`(x, y, width, height)` — for both `annotate_trees_enhanced` (used by the
panoramic pipeline) and the older `annotate_trees`; the two representations
coexist across the public output and the internal region records. -/
theorem C9_bbox_corner_format (l : List Region) :
    (annotate_trees_enhanced l).map TreeDatum.bbox
      = l.map (fun r => [r.bbox.1, r.bbox.2.1, r.bbox.1 + r.bbox.2.2.1,
          r.bbox.2.1 + r.bbox.2.2.2]) ∧
    (annotate_trees l).map TreeDatumBasic.bbox
      = l.map (fun r => [r.bbox.1, r.bbox.2.1, r.bbox.1 + r.bbox.2.2.1,
          r.bbox.2.1 + r.bbox.2.2.2]) := by
  constructor
  · simp only [annotate_trees_enhanced, List.map_map]
    conv_rhs => rw [← List.enum_map_snd l, List.map_map]
    rfl
  · simp only [annotate_trees, List.map_map]
    conv_rhs => rw [← List.enum_map_snd l, List.map_map]
    rfl
